import Mathlib

/-!
Verification development for the interceptor-cli proxy.

The development shallowly embeds the three core components of the source:
the model-keyed request cache (`src/request-cache.js`), the SSE stream
parser/reconstructor (`sse-parser.js`) and the diff-ordering step of the
log formatter (`src/logging/formatters.js`), together with the structural
differ contract the cache relies on.

JSON-like JavaScript values are modelled by the mutually inductive types
`JValue` / `JArr` / `JObj`: arrays are ordered element lists and objects
are ordered key-value lists, matching JavaScript property-insertion
order.  JavaScript numbers are modelled as integers (every value the
claims exercise is integral), and host-level semantics (truthiness,
property access, array `length`) are embedded by small explicit helper
functions next to their uses.
-/

mutual
inductive JValue where
  | null : JValue
  | bool (b : Bool) : JValue
  | num (n : Int) : JValue
  | str (s : String) : JValue
  | arr (elems : JArr) : JValue
  | obj (fields : JObj) : JValue

inductive JArr where
  | nil : JArr
  | cons (head : JValue) (tail : JArr) : JArr

inductive JObj where
  | nil : JObj
  | cons (key : String) (val : JValue) (tail : JObj) : JObj
end

mutual
/-- Structural (deep) equality test on values, mirroring the recursive
structural equality the differ contract requires. -/
def beqVal : JValue → JValue → Bool
  | .null, .null => true
  | .bool a, .bool b => a == b
  | .num a, .num b => a == b
  | .str a, .str b => a == b
  | .arr a, .arr b => beqArr a b
  | .obj a, .obj b => beqObj a b
  | _, _ => false

/-- Structural equality on array contents. -/
def beqArr : JArr → JArr → Bool
  | .nil, .nil => true
  | .cons a as, .cons b bs => beqVal a b && beqArr as bs
  | _, _ => false

/-- Structural equality on object field lists. -/
def beqObj : JObj → JObj → Bool
  | .nil, .nil => true
  | .cons k v t, .cons k' v' t' => k == k' && beqVal v v' && beqObj t t'
  | _, _ => false
end

mutual
theorem beqVal_iff : ∀ a b : JValue, beqVal a b = true ↔ a = b
  | .null, b => by cases b <;> simp [beqVal]
  | .bool x, b => by cases b <;> simp [beqVal]
  | .num x, b => by cases b <;> simp [beqVal]
  | .str x, b => by cases b <;> simp [beqVal]
  | .arr x, b => by cases b <;> simp [beqVal, beqArr_iff x _]
  | .obj x, b => by cases b <;> simp [beqVal, beqObj_iff x _]

theorem beqArr_iff : ∀ a b : JArr, beqArr a b = true ↔ a = b
  | .nil, b => by cases b <;> simp [beqArr]
  | .cons x xs, b => by
      cases b <;> simp [beqArr, beqVal_iff x _, beqArr_iff xs _]

theorem beqObj_iff : ∀ a b : JObj, beqObj a b = true ↔ a = b
  | .nil, b => by cases b <;> simp [beqObj]
  | .cons k v t, b => by
      cases b <;> simp [beqObj, beqVal_iff v _, beqObj_iff t _, and_assoc]
end

instance : DecidableEq JValue := fun a b => decidable_of_iff _ (beqVal_iff a b)

instance : DecidableEq JArr := fun a b => decidable_of_iff _ (beqArr_iff a b)

instance : DecidableEq JObj := fun a b => decidable_of_iff _ (beqObj_iff a b)

/-- JavaScript truthiness of a JSON-like value: `null`, `false`, `0` and
`""` are falsy; every array and object is truthy. -/
def jsTruthy : JValue → Bool
  | .null => false
  | .bool b => b
  | .num n => decide (n ≠ 0)
  | .str s => decide (s ≠ "")
  | .arr _ => true
  | .obj _ => true

/-- First-occurrence field lookup in an object field list.  JavaScript
objects have unique keys, so this is exactly property lookup. -/
def JObj.lookup : JObj → String → Option JValue
  | .nil, _ => none
  | .cons k v t, key => if k = key then some v else JObj.lookup t key

/-- JavaScript property assignment `o[k] = v`: replaces the value of an
existing key in place (preserving key order), otherwise appends the new
key at the end. -/
def JObj.set : JObj → String → JValue → JObj
  | .nil, k, v => .cons k v .nil
  | .cons k' v' t, k, v =>
      if k' = k then .cons k v t else .cons k' v' (JObj.set t k v)

/-- JavaScript property access `v[k]`: a field lookup on objects;
`undefined` (modelled as `none`) on every non-object value. -/
def jsGetField (v : JValue) (k : String) : Option JValue :=
  match v with
  | .obj fs => JObj.lookup fs k
  | _ => none

/-- The field list of an object, and the empty list for non-objects:
models the object spread `{...v}` as used by the source on payload
fields (spreading a non-object produces no string-keyed properties). -/
def objFields : JValue → JObj
  | .obj fs => fs
  | _ => .nil

/-- Length of a homogeneous JArr list. -/
def JArr.length : JArr → Nat
  | .nil => 0
  | .cons _ t => JArr.length t + 1

/-- Drop the first `n` elements of a JArr list. -/
def JArr.drop : Nat → JArr → JArr
  | 0, xs => xs
  | _ + 1, .nil => .nil
  | n + 1, .cons _ t => JArr.drop n t

/-- Zero-based element access into a JArr list. -/
def JArr.get : JArr → Nat → Option JValue
  | .nil, _ => none
  | .cons v _, 0 => some v
  | .cons _ t, n + 1 => JArr.get t n

/-- Zero-based index access `v[n]`, an element on arrays and
`undefined` (`none`) otherwise. -/
def jsIndexGet (v : JValue) (n : Nat) : Option JValue :=
  match v with
  | .arr xs => JArr.get xs n
  | _ => none

/-- JavaScript `.length`: defined for arrays (element count) and strings
(character count); `undefined` (`none`) for every other value. -/
def jsLength : JValue → Option Int
  | .arr xs => some (JArr.length xs)
  | .str s => some s.length
  | _ => none

/-- JavaScript `<` between two possibly-`undefined` numbers: any
comparison against `undefined` is `false` (NaN semantics). -/
def jsLtOpt : Option Int → Option Int → Bool
  | some a, some b => decide (a < b)
  | _, _ => false

/-!
## Difference records and the structural differ

`analyzeCacheStatus` in `src/request-cache.js` computes diffs through the
`deep-diff` library dependency, whose own code is not part of the
repository; the spec (§3, §4.1) states its contract.  The record shape
below is the library's record shape as the repository consumes it in
`formatDiff` (`src/logging/formatters.js`): `kind` is one of `N` (new
property), `D` (deleted property), `E` (edited value), `A` (array
element change); `path` is the sequence of keys/indices to the changed
location (for `A` records, to the array itself, with the element index
in `index` and the element-level change in `item`).
-/

/-- One element of a difference record's `path`: an object key (string)
or an array index (number). -/
inductive PathSeg where
  | num (n : Int) : PathSeg
  | str (s : String) : PathSeg
  deriving DecidableEq

/-- The nested element-level change carried by an `A` record: a new
element, a deleted element, or an edited element. -/
inductive DiffItem where
  | N (rhs : JValue) : DiffItem
  | D (lhs : JValue) : DiffItem
  | E (lhs rhs : JValue) : DiffItem
  deriving DecidableEq

/-- The `kind` tag of a difference record. -/
inductive DiffKind where
  | N : DiffKind
  | D : DiffKind
  | E : DiffKind
  | A : DiffKind
  deriving DecidableEq

/-- A difference record as consumed by `formatDiff`; fields that a given
kind does not use are `none`. -/
structure DiffRecord where
  kind : DiffKind
  path : List PathSeg
  lhs : Option JValue
  rhs : Option JValue
  index : Option Int
  item : Option DiffItem
  deriving DecidableEq

/-- Modelled from the spec: the candidate-keys pass over two objects
(§4.1): a candidate key absent from the baseline yields an `N` record
carrying the new value. -/
def diffObjR (p : List PathSeg) (fl : JObj) : JObj → List DiffRecord
  | .nil => []
  | .cons k v t =>
      (if (JObj.lookup fl k).isSome then []
       else [⟨.N, p ++ [.str k], none, some v, none, none⟩])
        ++ diffObjR p fl t

/-- Modelled from the spec: candidate array elements beyond the
baseline's length are insertions (§4.1), reported as `A` records
carrying the index and a nested `N` descriptor. -/
def arrExtraNew (p : List PathSeg) : Nat → JArr → List DiffRecord
  | _, .nil => []
  | i, .cons v t =>
      ⟨.A, p, none, none, some (Int.ofNat i), some (.N v)⟩ :: arrExtraNew p (i + 1) t

/-- Modelled from the spec: baseline array elements beyond the
candidate's length are removals (§4.1), reported as `A` records
carrying the index and a nested `D` descriptor. -/
def arrExtraDel (p : List PathSeg) : Nat → JArr → List DiffRecord
  | _, .nil => []
  | i, .cons v t =>
      ⟨.A, p, none, none, some (Int.ofNat i), some (.D v)⟩ :: arrExtraDel p (i + 1) t

mutual
/-- Modelled from the spec: the structural differ (§4.1) stands in for
the repository's `deep-diff` library dependency, whose source is not in
the repository.  Walks baseline and candidate in parallel; produces an
`E` record where the two sides are unequal and at least one side is a
terminal (or the container types differ), recurses field-by-field into
objects and element-by-element into arrays, extending the path with the
key or index. -/
def diffVal (p : List PathSeg) : JValue → JValue → List DiffRecord
  | .obj fl, .obj fr => diffObjL p fl fr ++ diffObjR p fl fr
  | .arr ls, .arr rs =>
      diffArrShared p 0 ls rs
        ++ arrExtraNew p (JArr.length ls) (JArr.drop (JArr.length ls) rs)
        ++ arrExtraDel p (JArr.length rs) (JArr.drop (JArr.length rs) ls)
  | l, r =>
      if l = r then []
      else [⟨.E, p, some l, some r, none, none⟩]

/-- Modelled from the spec: positional comparison of the shared prefix
of two arrays (§4.1), recursing into the elements with the index
appended to the path. -/
def diffArrShared (p : List PathSeg) : Nat → JArr → JArr → List DiffRecord
  | i, .cons l ls, .cons r rs =>
      diffVal (p ++ [.num (Int.ofNat i)]) l r ++ diffArrShared p (i + 1) ls rs
  | _, _, _ => []

/-- Modelled from the spec: the baseline-keys pass over two objects
(§4.1).  A key absent from the candidate yields a `D` record; a key
present in both recurses into the two values. -/
def diffObjL (p : List PathSeg) : JObj → JObj → List DiffRecord
  | .nil, _ => []
  | .cons k v t, fr =>
      (match JObj.lookup fr k with
        | some vr => diffVal (p ++ [.str k]) v vr
        | none => [⟨.D, p ++ [.str k], some v, none, none, none⟩])
        ++ diffObjL p t fr
end

/-- Modelled from the spec: a `null` baseline or candidate is treated as
an empty object for comparison purposes (§4.1). -/
def nullAsEmptyObj : JValue → JValue
  | .null => .obj .nil
  | v => v

/-- Modelled from the spec: the top-level differ contract
`diff(baseline, candidate)` (§4.1). -/
def diff (l r : JValue) : List DiffRecord :=
  diffVal [] (nullAsEmptyObj l) (nullAsEmptyObj r)

/-!
Well-formedness: JavaScript objects cannot carry duplicate keys, so the
values the source can ever pass to the differ have duplicate-free key
lists at every object node.  `wfVal` carves out exactly that domain.
-/

mutual
/-- Every object node of the value has duplicate-free keys. -/
def wfVal : JValue → Bool
  | .arr xs => wfArr xs
  | .obj fs => wfObj fs
  | _ => true

/-- All elements of the array are well-formed. -/
def wfArr : JArr → Bool
  | .nil => true
  | .cons v t => wfVal v && wfArr t

/-- The field list has duplicate-free keys and well-formed values. -/
def wfObj : JObj → Bool
  | .nil => true
  | .cons k v t => (JObj.lookup t k).isNone && wfVal v && wfObj t
end

/-!
## The session cache (`src/request-cache.js`)

The module's `requestCache` is a JavaScript `Map` keyed by the model
string.  It is embedded as an association list threaded explicitly
through the operations; `mapGet` / `mapSet` are `Map.get` / `Map.set`
(replace in place, else append), and `Map.delete` removes the pairs
carrying the key.
-/

/-- One cache entry: the last-seen request body, request headers, and
optionally the last-seen response headers. -/
structure CacheEntry where
  body : JValue
  headers : JValue
  responseHeaders : Option JValue
  deriving DecidableEq

abbrev Cache := List (String × CacheEntry)

/-- `Map.get`: the value at the first occurrence of the key. -/
def mapGet : Cache → String → Option CacheEntry
  | [], _ => none
  | (k, v) :: rest, key => if k = key then some v else mapGet rest key

/-- `Map.set`: replace the value at an existing key in place, else
append the new pair. -/
def mapSet : Cache → String → CacheEntry → Cache
  | [], key, v => [(key, v)]
  | (k, v') :: rest, key, v =>
      if k = key then (key, v) :: rest else (k, v') :: mapSet rest key v

/-- `getCachedData(modelKey)` from `src/request-cache.js`. -/
def getCachedData (c : Cache) (modelKey : String) : Option CacheEntry :=
  mapGet c modelKey

/-- `updateCache(modelKey, body, headers, responseHeaders = null)` from
`src/request-cache.js`: stores the new body and headers under the key,
keeping the existing entry's response headers when none are supplied
(`responseHeaders || existingCache?.responseHeaders`). -/
def updateCache (c : Cache) (modelKey : String) (body headers : JValue)
    (responseHeaders : Option JValue) : Cache :=
  let existingCache := mapGet c modelKey
  mapSet c modelKey
    ⟨body, headers,
      match responseHeaders with
      | some rh => some rh
      | none =>
          match existingCache with
          | some e => e.responseHeaders
          | none => none⟩

/-- `updateResponseHeaders(modelKey, responseHeaders)` from
`src/request-cache.js`: overwrite the entry's response headers; no-op
when no entry exists. -/
def updateResponseHeaders (c : Cache) (modelKey : String) (responseHeaders : JValue) :
    Cache :=
  match mapGet c modelKey with
  | none => c
  | some cachedData => mapSet c modelKey ⟨cachedData.body, cachedData.headers, some responseHeaders⟩

/-- `bustCache(modelKey)` from `src/request-cache.js`: `Map.delete`. -/
def bustCache (c : Cache) (modelKey : String) : Cache :=
  c.filter (fun p => decide (p.1 ≠ modelKey))

/-- The classification record returned by `analyzeCacheStatus`. -/
structure AnalyzeResult where
  isFirstRequest : Bool
  cacheBusted : Bool
  shouldDiff : Bool
  bodyDiff : Option (List DiffRecord)
  headerDiff : Option (List DiffRecord)
  deriving DecidableEq

/-- `currentBody.messages || []` as used by `analyzeCacheStatus`: the
`messages` field when truthy, else an empty array (also for an absent
field or a non-object body, where the access yields `undefined`). -/
def messagesOrEmpty (v : JValue) : JValue :=
  match jsGetField v "messages" with
  | some m => if jsTruthy m then m else .arr .nil
  | none => .arr .nil

/-- `analyzeCacheStatus(modelKey, currentBody, currentHeaders)` from
`src/request-cache.js`.  Returns the classification together with the
cache state after the call (the call mutates the module-level map only
through `bustCache`). -/
def analyzeCacheStatus (c : Cache) (modelKey : String) (currentBody currentHeaders : JValue) :
    AnalyzeResult × Cache :=
  match mapGet c modelKey with
  | none => (⟨true, false, false, none, none⟩, c)
  | some cachedData =>
      if jsLtOpt (jsLength (messagesOrEmpty currentBody))
          (jsLength (messagesOrEmpty cachedData.body)) then
        (⟨false, true, false, none, none⟩, bustCache c modelKey)
      else
        (⟨false, false, true, some (diff cachedData.body currentBody),
          some (diff cachedData.headers currentHeaders)⟩, c)

/-- One inbound request as the proxy's body-handling path sees it: the
session key extracted from the body's `model` field, the parsed body,
and the filtered request headers. -/
structure Request where
  key : String
  body : JValue
  headers : JValue
  deriving DecidableEq

/-- The cache interaction of `createProxyServer`'s body-handling path
(`src/proxy.js`): classify the request via `analyzeCacheStatus`, then
unconditionally store the new body and headers via `updateCache`. -/
def processRequest (c : Cache) (modelKey : String) (body headers : JValue) :
    AnalyzeResult × Cache :=
  let res := analyzeCacheStatus c modelKey body headers
  (res.1, updateCache res.2 modelKey body headers none)

/-- A sequence of requests processed in order against the cache. -/
def processAll (c : Cache) : List Request → Cache
  | [] => c
  | r :: rest => processAll (processRequest c r.key r.body r.headers).2 rest

/-!
## The diff-ordering step of `formatDiff` (`src/logging/formatters.js`)

`formatDiff` sorts the difference records with a comparator that walks
the two paths element-by-element.  `String.prototype.localeCompare` is
modelled by code-point comparison of the two strings, which agrees with
the default-locale collation on every comparison exercised here (in
particular digits collate before Latin letters in both).
-/

/-- Sign-style three-way comparison of two character lists in code-point
order. -/
def charListCmp : List Char → List Char → Int
  | [], [] => 0
  | [], _ :: _ => -1
  | _ :: _, [] => 1
  | a :: as, b :: bs =>
      if a < b then -1 else if b < a then 1 else charListCmp as bs

/-- Model of `String.prototype.localeCompare`. -/
def localeCompare (a b : String) : Int :=
  charListCmp a.data b.data

/-- JavaScript `String(x)` on a path segment: the raw string, or the
decimal rendering of a numeric index. -/
def segToString : PathSeg → String
  | .num n => toString n
  | .str s => s

/-- The per-segment comparison of the `formatDiff` comparator: two
numeric segments compare numerically (`pathA[i] - pathB[i]`); every
other combination falls through to
`String(pathA[i]).localeCompare(String(pathB[i]))`. -/
def segCompare (a b : PathSeg) : Int :=
  match a, b with
  | .num x, .num y => x - y
  | _, _ => localeCompare (segToString a) (segToString b)

/-- The comparator's loop over the common prefix of the two paths:
the result of `segCompare` at the first differing position, or `none`
when the common prefix agrees. -/
def pathCompareAux : List PathSeg → List PathSeg → Option Int
  | a :: as, b :: bs => if a = b then pathCompareAux as bs else some (segCompare a b)
  | _, _ => none

/-- The full record comparator of `formatDiff`'s sort: first differing
path segment; then, for two `A` records that both carry an index, the
index difference; otherwise the path-length difference. -/
def diffRecCompare (a b : DiffRecord) : Int :=
  match pathCompareAux a.path b.path with
  | some v => v
  | none =>
      match a.kind, b.kind, a.index, b.index with
      | .A, .A, some i, some j => i - j
      | _, _, _, _ => (a.path.length : Int) - (b.path.length : Int)

/-- Stable insertion of a record into a sorted list under the
comparator (an element goes before the first element it does not
compare after). -/
def insertSorted (x : DiffRecord) : List DiffRecord → List DiffRecord
  | [] => [x]
  | y :: ys => if diffRecCompare x y ≤ 0 then x :: y :: ys else y :: insertSorted x ys

/-- The sorting step of `formatDiff`: a stable sort of the difference
records under `diffRecCompare` (`Array.prototype.sort` is stable). -/
def formatDiffSort : List DiffRecord → List DiffRecord
  | [] => []
  | x :: xs => insertSorted x (formatDiffSort xs)

/-!
## The SSE stream parser and reconstructor (`sse-parser.js`)

`parseSSE` splits the raw text on newlines and folds the lines into
events; `reconstructMessageFromSSE` folds a list of events into a single
message object.  The two are embedded separately, matching how every
claim exercises them: the parser on raw text (producing events whose
data is the trimmed payload text — `JSON.parse` is a host builtin
applied to exactly that text, so the stored datum is a pure function of
it), and the reconstructor on event lists whose data is already a
structured value.
-/

/-- An event as consumed by `reconstructMessageFromSSE`: the event name
and the (already JSON-decoded) payload, `none` when no payload line was
seen. -/
structure SSEEvent where
  event : String
  data : Option JValue
  deriving DecidableEq

/-- The fold state of `reconstructMessageFromSSE`: the message object
under construction (absent until a `message_start` is seen) and the
sparse `contentBlocks` array (a missing slot is `none`). -/
structure ReconState where
  message : Option JObj
  blocks : List (Option JValue)
  deriving DecidableEq

/-- `event.data?.field`: field access through the optional payload. -/
def dataField (e : SSEEvent) (k : String) : Option JValue :=
  match e.data with
  | some d => jsGetField d k
  | none => none

/-- `contentBlocks[n] = v` on the sparse block array: pads with missing
slots up to `n` exactly as assigning past the end of a JavaScript array
grows its length to `n + 1`. -/
def setBlock : List (Option JValue) → Nat → JValue → List (Option JValue)
  | [], 0, v => [some v]
  | [], n + 1, v => none :: setBlock [] n v
  | _ :: rest, 0, v => some v :: rest
  | b :: rest, n + 1, v => b :: setBlock rest n v

/-- `contentBlocks[n]` on the sparse block array. -/
def getBlock : List (Option JValue) → Nat → Option JValue
  | [], _ => none
  | b :: _, 0 => b
  | _ :: rest, n + 1 => getBlock rest n

/-- `(block.text || '')`: the block's text when it is a string (an
empty string is falsy and already yields `''`); absent text yields
`''`.  The source only ever stores strings in `text`, so the non-string
numeric-coercion corner of `+` is outside the modelled domain. -/
def jsTextOrEmpty (blk : JValue) : String :=
  match jsGetField blk "text" with
  | some (.str s) => s
  | _ => ""

/-- `{...base, ...upd}`: shallow merge, the update's keys win and new
keys append in order. -/
def objMerge : JObj → JObj → JObj
  | base, .nil => base
  | base, .cons k v t => objMerge (JObj.set base k v) t

/-- `{...message.usage}`: the existing usage object's fields, or none
when `usage` is absent or not an object (spreading those adds no
string-keyed fields). -/
def usageBase (fields : JObj) : JObj :=
  match JObj.lookup fields "usage" with
  | some (.obj fs) => fs
  | _ => .nil

/-- One iteration of the event loop in `reconstructMessageFromSSE`:
the four recognized event names, each guarded by the truthiness checks
the source performs; any other event (or a failed guard) leaves the
state unchanged. -/
def reconStep (st : ReconState) (e : SSEEvent) : ReconState :=
  if e.event = "message_start" then
    match dataField e "message" with
    | some msg =>
        if jsTruthy msg then
          ⟨some (JObj.set (objFields msg) "content" (.arr .nil)), st.blocks⟩
        else st
    | none => st
  else if e.event = "content_block_start" then
    match dataField e "content_block" with
    | some cb =>
        if jsTruthy cb then
          match dataField e "index" with
          | some (.num n) =>
              if 0 ≤ n then ⟨st.message, setBlock st.blocks n.toNat (.obj (objFields cb))⟩
              else st
          | _ => st
        else st
    | none => st
  else if e.event = "content_block_delta" then
    match dataField e "delta" with
    | some delta =>
        match jsGetField delta "text" with
        | some (.str t) =>
            if t ≠ "" then
              match dataField e "index" with
              | some (.num n) =>
                  if 0 ≤ n then
                    match getBlock st.blocks n.toNat with
                    | some blk =>
                        if jsTruthy blk then
                          ⟨st.message,
                            setBlock st.blocks n.toNat
                              (.obj (JObj.set (objFields blk) "text"
                                (.str (jsTextOrEmpty blk ++ t))))⟩
                        else st
                    | none => st
                  else st
              | _ => st
            else st
        | _ => st
    | none => st
  else if e.event = "message_delta" then
    match dataField e "delta" with
    | some delta =>
        if jsTruthy delta then
          match st.message with
          | some fields =>
              let fields1 :=
                match jsGetField delta "stop_reason" with
                | some sr => if jsTruthy sr then JObj.set fields "stop_reason" sr else fields
                | none => fields
              let fields2 :=
                match dataField e "usage" with
                | some u =>
                    if jsTruthy u then
                      JObj.set fields1 "usage" (.obj (objMerge (usageBase fields1) (objFields u)))
                    else fields1
                | none => fields1
              ⟨some fields2, st.blocks⟩
          | none => st
        else st
    | none => st
  else st

/-- The sparse block array as the final `content` value: a missing slot
serializes as `null`. -/
def blocksToArr : List (Option JValue) → JArr
  | [] => .nil
  | some b :: rest => .cons b (blocksToArr rest)
  | none :: rest => .cons .null (blocksToArr rest)

/-- `reconstructMessageFromSSE(events)` from `sse-parser.js`: fold the
events, then install the accumulated content blocks when any exist;
absent (`none`) when no `message_start` was seen. -/
def reconstructMessageFromSSE (events : List SSEEvent) : Option JValue :=
  let st := events.foldl reconStep ⟨none, []⟩
  match st.message with
  | none => none
  | some fields =>
      if st.blocks.length > 0 then
        some (.obj (JObj.set fields "content" (.arr (blocksToArr st.blocks))))
      else some (.obj fields)

/-- An event as produced by `parseSSE`: the event name and, when a
non-blank payload line was seen, the trimmed payload text (the text the
source hands to `JSON.parse`, falling back to the raw text — in either
case a pure function of this text). -/
structure RawEvent where
  event : String
  data : Option String
  deriving DecidableEq

/-- `text.split('\n')` at the character level. -/
def splitOnNewline : List Char → List (List Char)
  | [] => [[]]
  | c :: rest =>
      match splitOnNewline rest with
      | [] => [[]]
      | line :: lines =>
          if c = '\n' then [] :: line :: lines else (c :: line) :: lines

/-- `line.startsWith(pat)` at the character level. -/
def startsWithChars : List Char → List Char → Bool
  | _, [] => true
  | [], _ :: _ => false
  | c :: cs, p :: ps => if c = p then startsWithChars cs ps else false

/-- `String.prototype.trim` at the character level: strip leading and
trailing whitespace. -/
def jsTrimChars (l : List Char) : List Char :=
  ((l.dropWhile Char.isWhitespace).reverse.dropWhile Char.isWhitespace).reverse

/-- The line loop of `parseSSE`: an `event: ` line flushes the current
event and starts a new one named by the rest of the line; a `data: `
line with a non-blank trimmed payload overwrites the current event's
data; every other line (or a payload line before any event) is
ignored; the last event is flushed at end of input. -/
def parseSSELinesGo : List RawEvent → Option RawEvent → List (List Char) → List RawEvent
  | acc, cur, [] => acc ++ (match cur with | some e => [e] | none => [])
  | acc, cur, line :: rest =>
      if startsWithChars line "event: ".data then
        parseSSELinesGo (acc ++ (match cur with | some e => [e] | none => []))
          (some ⟨⟨line.drop 7⟩, none⟩) rest
      else if startsWithChars line "data: ".data then
        match cur with
        | some e =>
            let dataStr := jsTrimChars (line.drop 6)
            if dataStr ≠ [] then parseSSELinesGo acc (some ⟨e.event, some ⟨dataStr⟩⟩) rest
            else parseSSELinesGo acc cur rest
        | none => parseSSELinesGo acc cur rest
      else parseSSELinesGo acc cur rest

/-- `parseSSE(sseData)` from `sse-parser.js`. -/
def parseSSE (s : String) : List RawEvent :=
  parseSSELinesGo [] none (splitOnNewline s.data)

/-- The data lines of a single-event SSE text: one `data: ` line per
payload, each on its own line. -/
def dataSegs : List String → List Char
  | [] => []
  | p :: rest => '\n' :: ("data: ".data ++ p.data) ++ dataSegs rest

/-- An SSE text made of a single `event: ` line followed by one
`data: ` line per payload. -/
def mkSSEText (name : String) (payloads : List String) : String :=
  ⟨"event: ".data ++ name.data ++ dataSegs payloads⟩

/-!
## Map lemmas
-/

theorem mapGet_mapSet_self : ∀ (c : Cache) (key : String) (v : CacheEntry),
    mapGet (mapSet c key v) key = some v
  | [], key, v => by simp [mapSet, mapGet]
  | (k, v') :: rest, key, v => by
      by_cases h : k = key
      · subst h; simp [mapSet, mapGet]
      · simp [mapSet, mapGet, h, mapGet_mapSet_self rest key v]

theorem mapGet_mapSet_ne : ∀ (c : Cache) (key key' : String) (v : CacheEntry),
    key' ≠ key → mapGet (mapSet c key v) key' = mapGet c key'
  | [], key, key', v, h => by simp [mapSet, mapGet, Ne.symm h]
  | (k, v') :: rest, key, key', v, h => by
      by_cases hk : k = key
      · subst hk
        simp [mapSet, mapGet, Ne.symm h]
      · by_cases hk' : k = key'
        · subst hk'
          simp [mapSet, mapGet, hk]
        · simp [mapSet, mapGet, hk, hk', mapGet_mapSet_ne rest key key' v h]

theorem mapGet_bustCache_self : ∀ (c : Cache) (key : String),
    mapGet (bustCache c key) key = none
  | [], key => by simp [bustCache, mapGet]
  | (k, v) :: rest, key => by
      by_cases h : k = key
      · subst h
        simpa [bustCache, List.filter] using mapGet_bustCache_self rest k
      · simpa [bustCache, List.filter, h, mapGet]
          using mapGet_bustCache_self rest key

theorem mapGet_bustCache_ne : ∀ (c : Cache) (key key' : String),
    key' ≠ key → mapGet (bustCache c key) key' = mapGet c key'
  | [], key, key', h => by simp [bustCache, mapGet]
  | (k, v) :: rest, key, key', h => by
      by_cases hk : k = key
      · subst hk
        have hkk' : ¬ k = key' := fun hh => h hh.symm
        simpa [bustCache, List.filter, mapGet, hkk']
          using mapGet_bustCache_ne rest k key' h
      · by_cases hk' : k = key'
        · subst hk'
          simp [bustCache, List.filter, hk, mapGet]
        · simpa [bustCache, List.filter, hk, hk', mapGet]
            using mapGet_bustCache_ne rest key key' h

/-- The only mutation `analyzeCacheStatus` performs is the bust. -/
theorem analyzeCacheStatus_snd (c : Cache) (key : String) (body headers : JValue) :
    (analyzeCacheStatus c key body headers).2 = c
    ∨ (analyzeCacheStatus c key body headers).2 = bustCache c key := by
  unfold analyzeCacheStatus
  split
  · exact Or.inl rfl
  · split
    · exact Or.inr rfl
    · exact Or.inl rfl

/-- After one processed request, an entry is present for a key exactly
when it is the request's key or was present before. -/
theorem mapGet_processRequest (c : Cache) (k : String) (body headers : JValue)
    (key : String) :
    (mapGet (processRequest c k body headers).2 key).isSome = true
      ↔ (key = k ∨ (mapGet c key).isSome = true) := by
  unfold processRequest updateCache
  by_cases hk : key = k
  · subst hk
    simp [mapGet_mapSet_self]
  · rw [mapGet_mapSet_ne _ _ _ _ hk]
    rcases analyzeCacheStatus_snd c k body headers with h2 | h2 <;> rw [h2]
    · simp [hk]
    · rw [mapGet_bustCache_ne _ _ _ hk]
      simp [hk]

/-- Entry existence after a request sequence, generalized over the
starting cache. -/
theorem mapGet_processAll : ∀ (reqs : List Request) (c : Cache) (key : String),
    (mapGet (processAll c reqs) key).isSome = true
      ↔ ((∃ r ∈ reqs, r.key = key) ∨ (mapGet c key).isSome = true)
  | [], c, key => by simp [processAll]
  | r :: rest, c, key => by
      rw [processAll, mapGet_processAll rest _ key, mapGet_processRequest]
      simp only [List.mem_cons, exists_eq_or_imp]
      constructor
      · rintro (h | (h | h))
        · exact Or.inl (Or.inr h)
        · exact Or.inl (Or.inl h.symm)
        · exact Or.inr h
      · rintro ((h | h) | h)
        · exact Or.inr (Or.inl h.symm)
        · exact Or.inl h
        · exact Or.inr (Or.inr h)

/-!
## Claim theorems for the session cache
-/

/-- C8: the first processed request bearing a key reports first-request
with no diff records and creates an entry for the key; and after any
sequence of processed requests, an entry exists for a session key if
and only if some request bearing that key was processed. -/
theorem firstRequest_creates_entry_and_existence_invariant :
    (∀ (c : Cache) (key : String) (body headers : JValue),
        mapGet c key = none →
          (processRequest c key body headers).1 = ⟨true, false, false, none, none⟩
          ∧ mapGet (processRequest c key body headers).2 key = some ⟨body, headers, none⟩)
    ∧ ∀ (reqs : List Request) (key : String),
        (mapGet (processAll [] reqs) key).isSome = true ↔ ∃ r ∈ reqs, r.key = key := by
  constructor
  · intro c key body headers hm
    constructor
    · simp [processRequest, analyzeCacheStatus, hm]
    · simp [processRequest, analyzeCacheStatus, hm, updateCache, mapGet_mapSet_self]
  · intro reqs key
    rw [mapGet_processAll]
    simp [mapGet]

/-- Witness for C8 at a concrete first request. -/
theorem firstRequest_creates_entry_and_existence_invariant_witness :
    (mapGet [] "m1" = none
      ∧ (processRequest [] "m1" (.obj .nil) (.obj .nil)).1 = ⟨true, false, false, none, none⟩
      ∧ mapGet (processRequest [] "m1" (.obj .nil) (.obj .nil)).2 "m1"
          = some ⟨.obj .nil, .obj .nil, none⟩)
    ∧ ((mapGet (processAll [] [⟨"m1", .obj .nil, .obj .nil⟩]) "m1").isSome = true
        ↔ ∃ r ∈ [(⟨"m1", .obj .nil, .obj .nil⟩ : Request)], r.key = "m1") :=
  ⟨⟨rfl,
    firstRequest_creates_entry_and_existence_invariant.1 [] "m1" (.obj .nil) (.obj .nil) rfl⟩,
   firstRequest_creates_entry_and_existence_invariant.2 [⟨"m1", .obj .nil, .obj .nil⟩] "m1"⟩

/-- C7: a classification always sets exactly one of the three status
flags, and it is first-request exactly when no entry exists for the key
at the time of the call. -/
theorem analyzeCacheStatus_exactly_one_status (c : Cache) (key : String)
    (body headers : JValue) :
    (((analyzeCacheStatus c key body headers).1.isFirstRequest
        && !(analyzeCacheStatus c key body headers).1.cacheBusted
        && !(analyzeCacheStatus c key body headers).1.shouldDiff)
      || (!(analyzeCacheStatus c key body headers).1.isFirstRequest
        && (analyzeCacheStatus c key body headers).1.cacheBusted
        && !(analyzeCacheStatus c key body headers).1.shouldDiff)
      || (!(analyzeCacheStatus c key body headers).1.isFirstRequest
        && !(analyzeCacheStatus c key body headers).1.cacheBusted
        && (analyzeCacheStatus c key body headers).1.shouldDiff)) = true
    ∧ ((analyzeCacheStatus c key body headers).1.isFirstRequest = true
        ↔ mapGet c key = none) := by
  cases hm : mapGet c key with
  | none => simp [analyzeCacheStatus, hm]
  | some e =>
      constructor
      · simp only [analyzeCacheStatus, hm]
        split <;> simp
      · simp only [analyzeCacheStatus, hm]
        split <;> simp

/-- C2: with an entry present whose cached body has a strictly longer
messages array than the incoming body's, the classification is
cache-busted with no body or header diff, and the entry is evicted. -/
theorem cacheBust_on_shorter_messages (c : Cache) (key : String) (e : CacheEntry)
    (body headers : JValue) (cur cached : JArr)
    (hc : mapGet c key = some e)
    (hcur : jsGetField body "messages" = some (.arr cur))
    (hcached : jsGetField e.body "messages" = some (.arr cached))
    (hlen : JArr.length cur < JArr.length cached) :
    (analyzeCacheStatus c key body headers).1 = ⟨false, true, false, none, none⟩
    ∧ mapGet (analyzeCacheStatus c key body headers).2 key = none := by
  have hlt : jsLtOpt (jsLength (messagesOrEmpty body))
      (jsLength (messagesOrEmpty e.body)) = true := by
    simp only [messagesOrEmpty, hcur, hcached, jsTruthy, if_true, jsLength, jsLtOpt,
      decide_eq_true_eq]
    exact_mod_cast hlen
  constructor
  · simp [analyzeCacheStatus, hc, hlt]
  · simp [analyzeCacheStatus, hc, hlt, mapGet_bustCache_self]

/-- A concrete chat message used by the concrete scenarios. -/
def msgA : JValue :=
  .obj (.cons "role" (.str "user") (.cons "content" (.str "hi") .nil))

/-- A second concrete chat message. -/
def msgB : JValue :=
  .obj (.cons "role" (.str "assistant") (.cons "content" (.str "hello") .nil))

/-- A third concrete chat message. -/
def msgC : JValue :=
  .obj (.cons "role" (.str "user") (.cons "content" (.str "and?") .nil))

/-- Concrete cached body `{messages: [a, b, c]}`. -/
def bodyABC : JValue :=
  .obj (.cons "messages" (.arr (.cons msgA (.cons msgB (.cons msgC .nil)))) .nil)

/-- Concrete candidate body `{messages: [a]}`. -/
def bodyA : JValue :=
  .obj (.cons "messages" (.arr (.cons msgA .nil)) .nil)

/-- Concrete candidate body `{messages: [a, b]}`. -/
def bodyAB : JValue :=
  .obj (.cons "messages" (.arr (.cons msgA (.cons msgB .nil))) .nil)

/-- Witness for C2: cached `{messages:[a,b,c]}` against incoming
`{messages:[a]}` busts the cache. -/
theorem cacheBust_on_shorter_messages_witness :
    mapGet [("m1", (⟨bodyABC, .obj .nil, none⟩ : CacheEntry))] "m1"
        = some ⟨bodyABC, .obj .nil, none⟩
    ∧ jsGetField bodyA "messages" = some (.arr (.cons msgA .nil))
    ∧ jsGetField bodyABC "messages"
        = some (.arr (.cons msgA (.cons msgB (.cons msgC .nil))))
    ∧ JArr.length (.cons msgA .nil) < JArr.length (.cons msgA (.cons msgB (.cons msgC .nil)))
    ∧ ((analyzeCacheStatus [("m1", ⟨bodyABC, .obj .nil, none⟩)] "m1" bodyA (.obj .nil)).1
          = ⟨false, true, false, none, none⟩
        ∧ mapGet (analyzeCacheStatus [("m1", ⟨bodyABC, .obj .nil, none⟩)] "m1" bodyA (.obj .nil)).2 "m1"
          = none) :=
  ⟨by decide, by decide, by decide, by decide,
   cacheBust_on_shorter_messages [("m1", ⟨bodyABC, .obj .nil, none⟩)] "m1"
     ⟨bodyABC, .obj .nil, none⟩ bodyA (.obj .nil) (.cons msgA .nil)
     (.cons msgA (.cons msgB (.cons msgC .nil)))
     (by decide) (by decide) (by decide) (by decide)⟩

/-- C4: replacing an entry's body and request headers through
`updateCache` with no response headers supplied keeps the response
headers previously recorded via `updateResponseHeaders`, readable via
`mapGet`. -/
theorem responseHeaders_preserved_across_body_replace (c : Cache) (key : String)
    (e : CacheEntry) (rh body headers : JValue)
    (hc : mapGet c key = some e) :
    mapGet (updateCache (updateResponseHeaders c key rh) key body headers none) key
      = some ⟨body, headers, some rh⟩ := by
  simp [updateResponseHeaders, hc, updateCache, mapGet_mapSet_self]

/-- Witness for C4 on a one-entry cache. -/
theorem responseHeaders_preserved_across_body_replace_witness :
    mapGet [("m1", (⟨bodyA, .obj .nil, none⟩ : CacheEntry))] "m1"
        = some ⟨bodyA, .obj .nil, none⟩
    ∧ mapGet (updateCache
        (updateResponseHeaders [("m1", ⟨bodyA, .obj .nil, none⟩)] "m1"
          (.obj (.cons "request-id" (.str "r1") .nil)))
        "m1" bodyAB (.obj .nil) none) "m1"
      = some ⟨bodyAB, .obj .nil, some (.obj (.cons "request-id" (.str "r1") .nil))⟩ :=
  ⟨by decide,
   responseHeaders_preserved_across_body_replace [("m1", ⟨bodyA, .obj .nil, none⟩)] "m1"
     ⟨bodyA, .obj .nil, none⟩ (.obj (.cons "request-id" (.str "r1") .nil)) bodyAB (.obj .nil)
     (by decide)⟩

/-- C3: a first request with `{messages:[a]}` under key `"m1"` is
classified first-request, and a second request with `{messages:[a,b]}`
under the same key is classified diffed, whose body diff is exactly the
one record describing the insertion at path `["messages", 1]` — an
array-element-changed record at path `["messages"]` carrying index `1`
and a nested Added descriptor for `b` (no header changes). -/
theorem firstRequest_then_diffed_with_single_added :
    (processRequest [] "m1" bodyA (.obj .nil)).1 = ⟨true, false, false, none, none⟩
    ∧ (processRequest (processRequest [] "m1" bodyA (.obj .nil)).2 "m1" bodyAB (.obj .nil)).1
        = ⟨false, false, true,
            some [⟨.A, [.str "messages"], none, none, some 1, some (.N msgB)⟩],
            some []⟩ := by
  decide

/-- A difference record at path `["messages", "role"]` (a string
segment in second position). -/
def recAtRole : DiffRecord :=
  ⟨.E, [.str "messages", .str "role"], some (.str "user"), some (.str "assistant"),
    none, none⟩

/-- A difference record at path `["messages", 0]` (a numeric segment in
second position). -/
def recAtZero : DiffRecord :=
  ⟨.E, [.str "messages", .num 0], some .null, some (.num 1), none, none⟩

/-- C1: evaluation of `formatDiff`'s ordering step at the claim's
failing input.  For the mixed numeric/string segment pair the
comparator falls through to `String(...).localeCompare(String(...))`,
under which `"0"` orders before `"role"`, so the record at
`["messages", 0]` sorts FIRST — the numeric segment wins, contradicting
the claim (and the comparator's own inline comment, which says
non-numbers come first). -/
theorem formatDiffSort_numeric_segment_sorts_first :
    formatDiffSort [recAtRole, recAtZero] = [recAtZero, recAtRole]
    ∧ segCompare (.num 0) (.str "role") < 0
    ∧ diffRecCompare recAtZero recAtRole < 0 := by
  decide

/-!
## C9: the differ is empty on identical values

JavaScript objects cannot carry duplicate keys, so `wfVal` (duplicate-
free keys at every object node) delimits exactly the values the source
can pass to the differ.
-/

/-- Membership of a key-value pair in an object field list. -/
def JObj.MemPair (k : String) (v : JValue) : JObj → Prop
  | .nil => False
  | .cons k' v' t => (k = k' ∧ v = v') ∨ JObj.MemPair k v t

theorem memPair_lookup_isSome : ∀ {fs : JObj} {k : String} {v : JValue},
    JObj.MemPair k v fs → (JObj.lookup fs k).isSome = true
  | .nil, k, v, h => h.elim
  | .cons k' v' t, k, v, h => by
      rcases h with ⟨hk, _⟩ | hm
      · subst hk; simp [JObj.lookup]
      · by_cases hk : k' = k
        · simp [JObj.lookup, hk]
        · simpa [JObj.lookup, hk] using memPair_lookup_isSome hm

theorem wfObj_lookup : ∀ {fs : JObj} {k : String} {v : JValue},
    wfObj fs = true → JObj.MemPair k v fs →
    JObj.lookup fs k = some v ∧ wfVal v = true
  | .cons k' v' t, k, v, hwf, hm => by
      rw [wfObj] at hwf
      simp only [Bool.and_eq_true] at hwf
      obtain ⟨⟨hnone, hv'⟩, ht⟩ := hwf
      rcases hm with ⟨hk, hv⟩ | hm
      · subst hk; subst hv
        simp [JObj.lookup, hv']
      · have ih := wfObj_lookup ht hm
        have hkne : ¬ k' = k := by
          intro hh
          subst hh
          rw [ih.1] at hnone
          simp at hnone
        simpa [JObj.lookup, hkne] using ih

theorem jarr_drop_length : ∀ xs : JArr, JArr.drop (JArr.length xs) xs = .nil
  | .nil => rfl
  | .cons v t => by
      rw [JArr.length, JArr.drop]
      exact jarr_drop_length t

theorem diffObjR_of_lookup_isSome : ∀ (p : List PathSeg) (fl fr : JObj),
    (∀ k v, JObj.MemPair k v fr → (JObj.lookup fl k).isSome = true) →
    diffObjR p fl fr = []
  | p, fl, .nil, h => rfl
  | p, fl, .cons k v t, h => by
      rw [diffObjR]
      rw [h k v (Or.inl ⟨rfl, rfl⟩)]
      simpa using diffObjR_of_lookup_isSome p fl t (fun k' v' hm => h k' v' (Or.inr hm))

mutual
theorem diffVal_self : ∀ (p : List PathSeg) (x : JValue),
    wfVal x = true → diffVal p x x = []
  | p, .null, _ => by simp [diffVal]
  | p, .bool b, _ => by simp [diffVal]
  | p, .num n, _ => by simp [diffVal]
  | p, .str s, _ => by simp [diffVal]
  | p, .arr xs, h => by
      rw [wfVal] at h
      rw [diffVal, diffArrShared_self p 0 xs h, jarr_drop_length, arrExtraNew, arrExtraDel]
      rfl
  | p, .obj fs, h => by
      rw [wfVal] at h
      rw [diffVal,
        diffObjL_self p fs fs (fun k v hm => wfObj_lookup h hm),
        diffObjR_of_lookup_isSome p fs fs (fun k v hm => memPair_lookup_isSome hm)]
      rfl

theorem diffArrShared_self : ∀ (p : List PathSeg) (i : Nat) (xs : JArr),
    wfArr xs = true → diffArrShared p i xs xs = []
  | p, i, .nil, _ => rfl
  | p, i, .cons v t, h => by
      rw [wfArr] at h
      simp only [Bool.and_eq_true] at h
      rw [diffArrShared, diffVal_self _ v h.1, diffArrShared_self p (i + 1) t h.2]
      rfl

theorem diffObjL_self : ∀ (p : List PathSeg) (fl fr : JObj),
    (∀ k v, JObj.MemPair k v fl → JObj.lookup fr k = some v ∧ wfVal v = true) →
    diffObjL p fl fr = []
  | p, .nil, fr, _ => rfl
  | p, .cons k v t, fr, hsub => by
      obtain ⟨hlk, hwf⟩ := hsub k v (Or.inl ⟨rfl, rfl⟩)
      rw [diffObjL, hlk]
      show diffVal (p ++ [PathSeg.str k]) v v ++ diffObjL p t fr = []
      rw [diffVal_self _ v hwf,
        diffObjL_self p t fr (fun k' v' hm => hsub k' v' (Or.inr hm))]
      rfl
end

/-- C9: the structural differ is empty on any value compared with
itself — for every JavaScript-representable value, i.e. every value
whose object nodes have duplicate-free keys. -/
theorem diff_self_empty (x : JValue) (h : wfVal x = true) : diff x x = [] := by
  have hn : wfVal (nullAsEmptyObj x) = true := by
    cases x <;> simp_all [nullAsEmptyObj, wfVal, wfObj]
  exact diffVal_self [] _ hn

/-- Witness for C9 at a nested concrete value mixing objects, arrays
and scalars. -/
theorem diff_self_empty_witness :
    wfVal (.obj (.cons "model" (.str "m1")
        (.cons "messages" (.arr (.cons msgA (.cons (.num 3) (.cons .null .nil))))
          (.cons "stream" (.bool true) .nil)))) = true
    ∧ diff (.obj (.cons "model" (.str "m1")
        (.cons "messages" (.arr (.cons msgA (.cons (.num 3) (.cons .null .nil))))
          (.cons "stream" (.bool true) .nil))))
        (.obj (.cons "model" (.str "m1")
          (.cons "messages" (.arr (.cons msgA (.cons (.num 3) (.cons .null .nil))))
            (.cons "stream" (.bool true) .nil)))) = [] :=
  ⟨by decide, diff_self_empty _ (by decide)⟩

/-!
## Claim theorems for the SSE reconstructor
-/

/-- The claim C5 event stream: `message_start` with empty content,
`content_block_start` at index 0 with empty text, two
`content_block_delta` events appending `"Hel"` then `"lo"`, and a
`message_delta` with stop reason `end_turn` and usage
`{output_tokens: 5}`. -/
def c5Events : List SSEEvent :=
  [⟨"message_start", some (.obj (.cons "message"
      (.obj (.cons "id" (.str "msg_1") (.cons "role" (.str "assistant")
        (.cons "content" (.arr .nil) .nil)))) .nil))⟩,
   ⟨"content_block_start", some (.obj (.cons "index" (.num 0)
      (.cons "content_block"
        (.obj (.cons "type" (.str "text") (.cons "text" (.str "") .nil))) .nil)))⟩,
   ⟨"content_block_delta", some (.obj (.cons "index" (.num 0)
      (.cons "delta"
        (.obj (.cons "type" (.str "text_delta") (.cons "text" (.str "Hel") .nil))) .nil)))⟩,
   ⟨"content_block_delta", some (.obj (.cons "index" (.num 0)
      (.cons "delta"
        (.obj (.cons "type" (.str "text_delta") (.cons "text" (.str "lo") .nil))) .nil)))⟩,
   ⟨"message_delta", some (.obj (.cons "delta"
      (.obj (.cons "stop_reason" (.str "end_turn") .nil))
      (.cons "usage" (.obj (.cons "output_tokens" (.num 5) .nil)) .nil)))⟩]

/-- C5: reconstructing the synthetic stream yields a message whose
content block 0 has text `"Hello"`, whose stop reason is `"end_turn"`,
and whose usage contains `output_tokens: 5`. -/
theorem sse_round_trip_reconstruction :
    ((reconstructMessageFromSSE c5Events).bind (fun m => jsGetField m "content")
        |>.bind (fun c => jsIndexGet c 0) |>.bind (fun b => jsGetField b "text"))
      = some (.str "Hello")
    ∧ ((reconstructMessageFromSSE c5Events).bind (fun m => jsGetField m "stop_reason"))
      = some (.str "end_turn")
    ∧ ((reconstructMessageFromSSE c5Events).bind (fun m => jsGetField m "usage")
        |>.bind (fun u => jsGetField u "output_tokens")) = some (.num 5) := by
  decide

/-- A non-`message_start` event leaves an absent message absent. -/
theorem reconStep_message_none (st : ReconState) (e : SSEEvent)
    (h1 : st.message = none) (h2 : ¬ e.event = "message_start") :
    (reconStep st e).message = none := by
  rw [reconStep, if_neg h2]
  repeat' split
  all_goals simp_all

/-- Folding events without a `message_start` never creates a message. -/
theorem foldl_reconStep_message_none : ∀ (events : List SSEEvent) (st : ReconState),
    st.message = none → (∀ e ∈ events, ¬ e.event = "message_start") →
    (events.foldl reconStep st).message = none
  | [], st, h1, _ => h1
  | e :: rest, st, h1, h2 => by
      rw [List.foldl_cons]
      exact foldl_reconStep_message_none rest _
        (reconStep_message_none st e h1 (h2 e (by simp)))
        (fun e' he' => h2 e' (by simp [he']))

/-- C6: a stream containing no `message_start` event reconstructs to
absent, whatever other events it contains. -/
theorem no_message_start_reconstructs_none (events : List SSEEvent)
    (h : ∀ e ∈ events, ¬ e.event = "message_start") :
    reconstructMessageFromSSE events = none := by
  have hm := foldl_reconStep_message_none events ⟨none, []⟩ rfl h
  simp only [reconstructMessageFromSSE, hm]

/-- Witness for C6 on a stream of only `content_block_start` and
`content_block_delta` events. -/
theorem no_message_start_reconstructs_none_witness :
    (∀ e ∈ [(⟨"content_block_start", some (.obj (.cons "index" (.num 0)
          (.cons "content_block"
            (.obj (.cons "type" (.str "text") (.cons "text" (.str "") .nil))) .nil)))⟩ : SSEEvent),
        (⟨"content_block_delta", some (.obj (.cons "index" (.num 0)
          (.cons "delta" (.obj (.cons "text" (.str "Hel") .nil)) .nil)))⟩ : SSEEvent)],
      ¬ e.event = "message_start")
    ∧ reconstructMessageFromSSE
        [⟨"content_block_start", some (.obj (.cons "index" (.num 0)
            (.cons "content_block"
              (.obj (.cons "type" (.str "text") (.cons "text" (.str "") .nil))) .nil)))⟩,
         ⟨"content_block_delta", some (.obj (.cons "index" (.num 0)
            (.cons "delta" (.obj (.cons "text" (.str "Hel") .nil)) .nil)))⟩] = none :=
  ⟨by decide, no_message_start_reconstructs_none _ (by decide)⟩

/-!
## Claim theorems for the SSE parser (`parseSSE`)
-/

theorem splitOnNewline_ne_nil : ∀ l : List Char, splitOnNewline l ≠ []
  | [] => by simp [splitOnNewline]
  | c :: rest => by
      rw [splitOnNewline]
      repeat' split
      all_goals simp

/-- Splitting past a newline-free chunk prepends it to the first
line of the rest. -/
theorem splitOnNewline_append : ∀ (l1 l2 : List Char), '\n' ∉ l1 →
    splitOnNewline (l1 ++ l2)
      = (l1 ++ (splitOnNewline l2).headI) :: (splitOnNewline l2).tail
  | [], l2, _ => by
      cases h : splitOnNewline l2 with
      | nil => exact absurd h (splitOnNewline_ne_nil l2)
      | cons line lines => simp [h]
  | c :: cs, l2, h => by
      have hc : ¬ c = '\n' := fun hh => h (hh ▸ List.mem_cons_self c cs)
      have hcs : '\n' ∉ cs := fun hh => h (List.mem_cons_of_mem c hh)
      rw [List.cons_append, splitOnNewline, splitOnNewline_append cs l2 hcs]
      simp [hc]

/-- The data lines of the synthetic text split into one line per
payload (after an empty first line). -/
theorem splitOnNewline_dataSegs : ∀ (ps : List String),
    (∀ p ∈ ps, '\n' ∉ p.data) →
    splitOnNewline (dataSegs ps)
      = [] :: ps.map (fun p => "data: ".data ++ p.data)
  | [], _ => by simp [dataSegs, splitOnNewline]
  | p :: rest, hp => by
      have hdl : '\n' ∉ "data: ".data ++ p.data := by
        intro hh
        rcases List.mem_append.1 hh with hh | hh
        · simp at hh
        · exact hp p (by simp) hh
      have hrest : ∀ q ∈ rest, '\n' ∉ q.data := fun q hq => hp q (by simp [hq])
      have hX : splitOnNewline (("data: ".data ++ p.data) ++ dataSegs rest)
          = ("data: ".data ++ p.data) :: rest.map (fun q => "data: ".data ++ q.data) := by
        rw [splitOnNewline_append _ _ hdl, splitOnNewline_dataSegs rest hrest]
        simp
      rw [dataSegs, List.cons_append, splitOnNewline, hX]
      simp

theorem data_line_not_event (x : List Char) :
    startsWithChars ('d' :: 'a' :: 't' :: 'a' :: ':' :: ' ' :: x)
      ['e', 'v', 'e', 'n', 't', ':', ' '] = false := rfl

theorem data_line_self (x : List Char) :
    startsWithChars ('d' :: 'a' :: 't' :: 'a' :: ':' :: ' ' :: x)
      ['d', 'a', 't', 'a', ':', ' '] = true := by
  cases x <;> rfl

theorem drop6_data (x : List Char) :
    List.drop 6 ('d' :: 'a' :: 't' :: 'a' :: ':' :: ' ' :: x) = x := rfl

theorem event_line_self (x : List Char) :
    startsWithChars ('e' :: 'v' :: 'e' :: 'n' :: 't' :: ':' :: ' ' :: x)
      ['e', 'v', 'e', 'n', 't', ':', ' '] = true := by
  cases x <;> rfl

theorem drop7_event (x : List Char) :
    List.drop 7 ('e' :: 'v' :: 'e' :: 'n' :: 't' :: ':' :: ' ' :: x) = x := rfl

/-- Folding the parser over data lines only: each non-blank payload
overwrites the current event's data, so only the last one remains. -/
theorem parseSSELinesGo_data : ∀ (ps : List String) (nm : String) (d : Option String)
    (plast : String),
    ps.getLast? = some plast →
    (∀ p ∈ ps, jsTrimChars p.data ≠ []) →
    parseSSELinesGo [] (some ⟨nm, d⟩) (ps.map (fun p => "data: ".data ++ p.data))
      = [⟨nm, some ⟨jsTrimChars plast.data⟩⟩]
  | [], _, _, _, hlast, _ => by simp at hlast
  | [p], nm, d, plast, hlast, hp => by
      have hp1 : jsTrimChars p.data ≠ [] := hp p (by simp)
      have hpl : plast = p := by
        simp at hlast
        exact hlast.symm
      subst hpl
      simp [parseSSELinesGo, data_line_not_event, data_line_self, drop6_data, hp1]
  | p :: q :: rest, nm, d, plast, hlast, hp => by
      have hp1 : jsTrimChars p.data ≠ [] := hp p (by simp)
      have hlast2 : (q :: rest).getLast? = some plast := by
        rw [← List.getLast?_cons_cons (a := p)]
        exact hlast
      have hp2 : ∀ r ∈ q :: rest, jsTrimChars r.data ≠ [] :=
        fun r hr => hp r (by simp [hr])
      have ih := parseSSELinesGo_data (q :: rest) nm (some ⟨jsTrimChars p.data⟩)
        plast hlast2 hp2
      simp only [List.map_cons]
      rw [parseSSELinesGo]
      simpa [data_line_not_event, data_line_self, drop6_data, hp1] using ih

/-- C10: parsing a text made of one `event: ` line followed by two or
more `data: ` lines with non-blank payloads yields a single event whose
data is the (trimmed) payload of the LAST data line only — later data
lines overwrite the previous payload and are never concatenated. -/
theorem parseSSE_last_data_line_wins (name plast : String) (ps : List String)
    (hn : '\n' ∉ name.data)
    (hp : ∀ p ∈ ps, '\n' ∉ p.data ∧ jsTrimChars p.data ≠ [])
    (_hlen : 2 ≤ ps.length)
    (hlast : ps.getLast? = some plast) :
    parseSSE (mkSSEText name ps) = [⟨name, some ⟨jsTrimChars plast.data⟩⟩] := by
  have hev : '\n' ∉ "event: ".data ++ name.data := by
    intro hh
    rcases List.mem_append.1 hh with hh | hh
    · simp at hh
    · exact hn hh
  have hsplit : splitOnNewline (("event: ".data ++ name.data) ++ dataSegs ps)
      = ("event: ".data ++ name.data) :: ps.map (fun p => "data: ".data ++ p.data) := by
    rw [splitOnNewline_append _ _ hev,
      splitOnNewline_dataSegs ps (fun p hp' => (hp p hp').1)]
    simp
  have hdata : (mkSSEText name ps).data = ("event: ".data ++ name.data) ++ dataSegs ps := by
    simp [mkSSEText]
  have hmk : (⟨name.data⟩ : String) = name := rfl
  rw [parseSSE, hdata, hsplit, parseSSELinesGo]
  simp only [event_line_self, drop7_event]
  rw [if_pos]
  · simp only [List.nil_append, drop7_event, hmk]
    exact parseSSELinesGo_data ps name none plast hlast (fun p hp' => (hp p hp').2)
  · simp [event_line_self]

/-- Witness for C10 with two data lines carrying payloads `"41"` and
`"42"`. -/
theorem parseSSE_last_data_line_wins_witness :
    ('\n' ∉ "message_delta".data)
    ∧ (∀ p ∈ ["41", "42"], '\n' ∉ p.data ∧ jsTrimChars p.data ≠ [])
    ∧ 2 ≤ (["41", "42"] : List String).length
    ∧ (["41", "42"] : List String).getLast? = some "42"
    ∧ parseSSE (mkSSEText "message_delta" ["41", "42"])
        = [⟨"message_delta", some ⟨jsTrimChars "42".data⟩⟩] :=
  ⟨by decide, by decide, by decide, by decide,
   parseSSE_last_data_line_wins "message_delta" "42" ["41", "42"]
     (by decide) (by decide) (by decide) (by decide)⟩
